import Mathlib

/-!
Shallow embedding of the gesture-classifier thread of `src/main.rs`
(the `run` function of the byhead repository).

Conventions of the embedding:
* every `f64` of the source is modelled as a rational number `ℚ`
  (idealized real arithmetic: all values arising in the verified claims
  are finite, and no rounding is modelled);
* a `std::time::Instant` is modelled as a rational number of seconds;
  `Instant::duration_since` saturates at zero, which `durationSince`
  reproduces with `max _ 0`;
* Rust `f64::signum` returns `1.0` on positive values and on `+0.0`,
  and `-1.0` on negative values; the embedding has no negative zero,
  so `fsignum` maps nonnegative values to `1` and negative ones to `-1`;
* the classifier thread processes one accepted sample per loop
  iteration; `step` is the embedding of one iteration of that loop
  (truncate, receive, record construction, discontinuity reset,
  warm-up gate, idle gate, threshold decision), returning the new
  history together with the signal sent on the channel, if any.
-/

/-- Embeds `struct Pose` of `src/main.rs`: six `f64` fields. -/
structure Pose where
  x : ℚ
  y : ℚ
  z : ℚ
  yaw : ℚ
  pitch : ℚ
  roll : ℚ
deriving DecidableEq, Repr

/-- Embeds `Pose::default()`: all six fields zero. -/
def Pose.zero : Pose := ⟨0, 0, 0, 0, 0, 0⟩

/-- Embeds `impl Sub for Pose`: fieldwise subtraction. -/
def Pose.sub (a b : Pose) : Pose :=
  ⟨a.x - b.x, a.y - b.y, a.z - b.z, a.yaw - b.yaw, a.pitch - b.pitch, a.roll - b.roll⟩

/-- Embeds `impl Div<f64> for Pose`: fieldwise division by a scalar. -/
def Pose.divQ (a : Pose) (d : ℚ) : Pose :=
  ⟨a.x / d, a.y / d, a.z / d, a.yaw / d, a.pitch / d, a.roll / d⟩

/-- Embeds `Pose::diff(&self, other, delta) = (*self - other) / delta`
(`src/main.rs` lines 78-80).  Note the source performs the division
unconditionally: there is no guard against `delta = 0`. -/
def Pose.diff (a b : Pose) (delta : ℚ) : Pose :=
  Pose.divQ (Pose.sub a b) delta

/-- Embeds `Instant::duration_since` (saturating at zero), in seconds. -/
def durationSince (a b : ℚ) : ℚ := max (a - b) 0

/-- Embeds Rust `f64::signum` for the values the embedding can produce
(no NaN and no negative zero): `1` on nonnegative input, `-1` on
negative input. -/
def fsignum (q : ℚ) : ℚ := if q < 0 then -1 else 1

/-- Embeds `struct PoseRecord`: pose, velocity estimate `v`, the
instant of reception and the time since the previous record. -/
structure PoseRecord where
  pose : Pose
  v : Pose
  instant : ℚ
  delta : ℚ
deriving DecidableEq, Repr

/-- Embeds `enum Signal` with all seven variants of the source. -/
inductive Signal where
  | LeftColumn
  | RightColumn
  | LeftMonitor
  | RightMonitor
  | Up
  | Down
  | Nop
deriving DecidableEq, Repr

/-- The literal `yaw_threshold = 36.0` of the classifier loop. -/
def yaw_threshold : ℚ := 36

/-- The literal `pitch_threshold = 40.0` of the classifier loop. -/
def pitch_threshold : ℚ := 40

/-- The literal `idle_time = 500` (milliseconds) of the classifier loop. -/
def idle_time : ℤ := 500

/-- The literal `accel_threshold = 1000.0` of the classifier loop. -/
def accel_threshold : ℚ := 1000

/-- Embeds the record construction of one loop iteration
(`src/main.rs` lines 214-244), applied to the pre-insertion history:
with an empty history the record carries `Pose::default()` velocity and
delta `0.0`; otherwise `delta` is the time since the front record, and
the velocity differences the new pose against `history.get(2)` (the
record at index 2 of the pre-insertion history) when it exists, else
against the front record. -/
def newRecord (h : List PoseRecord) (now : ℚ) (pose : Pose) : PoseRecord :=
  match h with
  | [] => ⟨pose, Pose.zero, now, 0⟩
  | prev :: _ =>
    let delta := durationSince now prev.instant
    match h.get? 2 with
    | some prev2 =>
        ⟨pose, Pose.diff pose prev2.pose (durationSince now prev2.instant), now, delta⟩
    | none => ⟨pose, Pose.diff pose prev.pose delta, now, delta⟩

/-- Embeds `now.duration_since(x.instant).as_millis() < idle_time`:
`as_millis` truncates the duration to whole milliseconds. -/
def ageMillisLt (now : ℚ) (x : PoseRecord) : Bool :=
  decide (⌊durationSince now x.instant * 1000⌋ < idle_time)

/-- Embeds the body of the `all` closure of the idle gate
(`src/main.rs` lines 265-272), with `r` the current record: either the
record was below both gesture thresholds, or both its yaw and its
pitch velocity signs match those of the current record. -/
def gateOk (r x : PoseRecord) : Prop :=
  (|x.v.yaw| < yaw_threshold ∧ |x.v.pitch| < pitch_threshold) ∨
    (fsignum x.v.yaw = fsignum r.v.yaw ∧ fsignum x.v.pitch = fsignum r.v.pitch)

instance (r x : PoseRecord) : Decidable (gateOk r x) := by
  unfold gateOk; infer_instance

/-- Embeds the `from_idle` computation (`src/main.rs` lines 261-272):
over the post-insertion history, skip the newest record, take records
while younger than the idle window, and require `gateOk` of each. -/
def from_idle (h2 : List PoseRecord) (now : ℚ) (r : PoseRecord) : Bool :=
  ((h2.drop 1).takeWhile (ageMillisLt now)).all (fun x => decide (gateOk r x))

/-- Embeds `history[0].v.diff(history[1].v, delta)` (`src/main.rs`
line 274): acceleration as the difference of the newest two velocity
estimates over the last inter-sample delta. -/
def accEstimate (r prev : PoseRecord) : Pose :=
  Pose.diff r.v prev.v r.delta

/-- Embeds the condition of the yaw branch (`src/main.rs` line 284):
`record.v.yaw.abs() >= yaw_threshold && acc.yaw.abs() > accel_threshold
&& record.v.yaw.abs() > record.v.pitch.abs()`. -/
def yawCond (r prev : PoseRecord) : Prop :=
  yaw_threshold ≤ |r.v.yaw| ∧ accel_threshold < |(accEstimate r prev).yaw| ∧
    |r.v.pitch| < |r.v.yaw|

instance (r prev : PoseRecord) : Decidable (yawCond r prev) := by
  unfold yawCond; infer_instance

/-- Embeds the condition of the pitch branch (`src/main.rs` line 303):
`record.v.pitch.abs() > pitch_threshold && acc.pitch.abs() >
accel_threshold`. -/
def pitchCond (r prev : PoseRecord) : Prop :=
  pitch_threshold < |r.v.pitch| ∧ accel_threshold < |(accEstimate r prev).pitch|

instance (r prev : PoseRecord) : Decidable (pitchCond r prev) := by
  unfold pitchCond; infer_instance

/-- Embeds the threshold decision (`src/main.rs` lines 284-319) on the
post-insertion history `h2 = r :: h`, current record `r`, previous
front record `prev`: the yaw branch is tried first, and each branch
sends only when `from_idle` holds. -/
def classify (h2 : List PoseRecord) (now : ℚ) (r prev : PoseRecord) : Option Signal :=
  if yawCond r prev then
    if from_idle h2 now r then
      some (if r.v.yaw < 0 then Signal.LeftColumn else Signal.RightColumn)
    else none
  else if pitchCond r prev then
    if from_idle h2 now r then
      some (if r.v.pitch < 0 then Signal.Down else Signal.Up)
    else none
  else none

/-- Embeds one iteration of the classifier loop (`src/main.rs` lines
200-320): truncate the history to 4000, receive a pose at instant
`now`, build and insert the new record, reset on a discontinuity
(`delta > 1.0`), skip classification below 16 records, otherwise
classify.  Returns the history after the iteration and the signal sent
on the channel, if any. -/
def step (h : List PoseRecord) (now : ℚ) (pose : Pose) : List PoseRecord × Option Signal :=
  match h.take 4000 with
  | [] => ([newRecord (h.take 4000) now pose], none)
  | prev :: rest =>
    if 1 < (newRecord (prev :: rest) now pose).delta then
      ([newRecord (prev :: rest) now pose], none)
    else if (newRecord (prev :: rest) now pose :: prev :: rest).length < 16 then
      (newRecord (prev :: rest) now pose :: prev :: rest, none)
    else
      (newRecord (prev :: rest) now pose :: prev :: rest,
        classify (newRecord (prev :: rest) now pose :: prev :: rest) now
          (newRecord (prev :: rest) now pose) prev)

/-- The signal component of one loop iteration. -/
def stepSignal (h : List PoseRecord) (now : ℚ) (pose : Pose) : Option Signal :=
  (step h now pose).2

/-- Runs the classifier loop over a list of timestamped poses,
collecting the emitted signals in order. -/
def runSamples (h : List PoseRecord) : List (ℚ × Pose) → List PoseRecord × List Signal
  | [] => (h, [])
  | (t, p) :: rest =>
    let out := step h t p
    let tail := runSamples out.1 rest
    (tail.1, out.2.toList ++ tail.2)

/-!  Definitions written from the specification text, for comparison
against the embedded source (refinement checks only; the source
definitions above are the authority). -/

/-- Following the words of spec section 4.3 for one lead-in record:
either the record was below the gesture thresholds, or its velocity
sign matches the sign of the current record on the current record's
dominant axis. -/
def gateSpecOk (r x : PoseRecord) : Prop :=
  (|x.v.yaw| < yaw_threshold ∧ |x.v.pitch| < pitch_threshold) ∨
    (if |r.v.pitch| < |r.v.yaw| then fsignum x.v.yaw = fsignum r.v.yaw
     else fsignum x.v.pitch = fsignum r.v.pitch)

instance (r x : PoseRecord) : Decidable (gateSpecOk r x) := by
  unfold gateSpecOk; infer_instance

/-- Following the words of spec section 4.3 for the whole gate: every
history record younger than the idle window, the newest excluded,
satisfies `gateSpecOk`. -/
def gateSpec (h2 : List PoseRecord) (now : ℚ) (r : PoseRecord) : Prop :=
  ∀ x ∈ h2.drop 1, ⌊durationSince now x.instant * 1000⌋ < idle_time → gateSpecOk r x

instance (h2 : List PoseRecord) (now : ℚ) (r : PoseRecord) : Decidable (gateSpec h2 now r) := by
  unfold gateSpec; infer_instance

/-!  An IEEE model of the one floating-point corner the claims touch:
`f64` division of finite operands by zero.  The rest of the embedding
uses `ℚ`, which has no infinities; `fdivF` records what the `f64`
division of `Pose::diff` produces on a finite numerator and a zero
denominator (rounding of nonzero results is not modelled). -/

/-- The result of an IEEE `f64` division with finite operands: a
finite value, one of the two infinities, or NaN. -/
inductive FVal where
  | fin : ℚ → FVal
  | inf : FVal
  | neginf : FVal
  | nan : FVal
deriving DecidableEq, Repr

/-- IEEE `f64` division for finite operands `a / b`: finite for
`b ≠ 0`, `±∞` for a nonzero numerator over zero, NaN for `0 / 0`. -/
def fdivF (a b : ℚ) : FVal :=
  if b = 0 then
    if a = 0 then FVal.nan else if 0 < a then FVal.inf else FVal.neginf
  else FVal.fin (a / b)

/-!  Concrete inputs used by the counterexamples and witnesses. -/

/-- A pose that is zero except for its yaw field. -/
def poseYaw (q : ℚ) : Pose := ⟨0, 0, 0, q, 0, 0⟩

/-- The synthetic sequence of spec section 8: an idle lead-in of 500 ms
sampled every 10 ms, followed by 600 ms of yaw increasing at a constant
50 degrees per second, sampled every 10 ms. -/
def syntheticSamples : List (ℚ × Pose) :=
  ((List.range 51).map (fun i => ((i : ℚ) / 100, poseYaw 0))) ++
    ((List.range 60).map (fun j => (((51 + j : ℕ) : ℚ) / 100, poseYaw (((j : ℚ) + 1) / 2))))

/-- An idle history record at instant `t`: zero pose, zero velocity. -/
def idleRec (t : ℚ) : PoseRecord := ⟨Pose.zero, Pose.zero, t, 1 / 100⟩

/-- Fourteen idle records at instants 0.98 down to 0.85, newest
first. -/
def exHistTail : List PoseRecord :=
  [idleRec (98 / 100), idleRec (97 / 100), idleRec (96 / 100), idleRec (95 / 100),
   idleRec (94 / 100), idleRec (93 / 100), idleRec (92 / 100), idleRec (91 / 100),
   idleRec (90 / 100), idleRec (89 / 100), idleRec (88 / 100), idleRec (87 / 100),
   idleRec (86 / 100), idleRec (85 / 100)]

/-- Fifteen idle records at instants 0.99 down to 0.85, newest first:
a warm, fully idle history one record short of the warm-up bound. -/
def exHist : List PoseRecord := idleRec (99 / 100) :: exHistTail

/-- A pose whose yaw, differenced against `exHist` at instant 1, gives
a yaw velocity of +50 degrees per second. -/
def exPoseYawPos : Pose := ⟨0, 0, 0, 3 / 2, 0, 0⟩

/-- A pose giving a pitch velocity of +45 degrees per second against
`exHist` at instant 1. -/
def exPosePitch : Pose := ⟨0, 0, 0, 0, 27 / 20, 0⟩

/-- A pose giving yaw velocity +40 and pitch velocity +45 against
`exHist` at instant 1: both thresholds exceeded, pitch dominant. -/
def exPoseBoth : Pose := ⟨0, 0, 0, 6 / 5, 27 / 20, 0⟩

/-- The current record of the gate counterexample: yaw velocity +50,
pitch velocity +1, so yaw is the dominant axis. -/
def gateRecCur : PoseRecord := ⟨Pose.zero, ⟨0, 0, 0, 50, 1, 0⟩, 1, 1 / 100⟩

/-- A young lead-in record with super-threshold velocity whose yaw sign
matches the current record but whose pitch sign does not. -/
def gateRecMixed : PoseRecord := ⟨Pose.zero, ⟨0, 0, 0, 40, -45, 0⟩, 99 / 100, 1 / 100⟩

/-- The gate counterexample history, newest first. -/
def gateHist : List PoseRecord := [gateRecCur, gateRecMixed, idleRec (98 / 100)]

/-- A young lead-in record with super-threshold yaw velocity of sign
opposite to the current record. -/
def gateRecOpp : PoseRecord := ⟨Pose.zero, ⟨0, 0, 0, -50, 1, 0⟩, 99 / 100, 1 / 100⟩

/-- The opposite-direction suppression history, newest first. -/
def gateHist2 : List PoseRecord := [gateRecCur, gateRecOpp, idleRec (98 / 100)]

/-!  General lemmas about the embedded loop. -/

/-- Unfolds one loop iteration on a nonempty history below the
capacity bound. -/
lemma step_cons (prev : PoseRecord) (rest : List PoseRecord) (now : ℚ) (pose : Pose)
    (hlen : (prev :: rest).length ≤ 4000) :
    step (prev :: rest) now pose =
      if 1 < (newRecord (prev :: rest) now pose).delta then
        ([newRecord (prev :: rest) now pose], none)
      else if (newRecord (prev :: rest) now pose :: prev :: rest).length < 16 then
        (newRecord (prev :: rest) now pose :: prev :: rest, none)
      else
        (newRecord (prev :: rest) now pose :: prev :: rest,
          classify (newRecord (prev :: rest) now pose :: prev :: rest) now
            (newRecord (prev :: rest) now pose) prev) := by
  unfold step
  rw [List.take_of_length_le hlen]

/-- One iteration grows the history by at most one record. -/
lemma step_length_le (h : List PoseRecord) (now : ℚ) (pose : Pose) :
    (step h now pose).1.length ≤ h.length + 1 := by
  unfold step
  cases htk : h.take 4000 with
  | nil => simp
  | cons prev rest =>
    have hsub : (prev :: rest).length ≤ h.length := by
      rw [← htk, List.length_take]
      exact min_le_right _ _
    dsimp only
    split_ifs with h1 h2
    · simp only [List.length_cons, List.length_nil] at *; omega
    · simp only [List.length_cons, List.length_nil] at *; omega
    · simp only [List.length_cons, List.length_nil] at *; omega

/-- If the history after an iteration is still below the warm-up bound,
that iteration sent no signal. -/
lemma step_signal_small (h : List PoseRecord) (now : ℚ) (pose : Pose) :
    (step h now pose).1.length < 16 → (step h now pose).2 = none := by
  unfold step
  cases htk : h.take 4000 with
  | nil => intro _; rfl
  | cons prev rest =>
    dsimp only
    split_ifs with h1 h2
    · intro _; rfl
    · intro _; rfl
    · intro hlen; exact absurd hlen h2

/-- The yaw branch with a passing gate sends the yaw-derived signal. -/
lemma classify_yaw (h2 : List PoseRecord) (now : ℚ) (r prev : PoseRecord)
    (hy : yawCond r prev) (hi : from_idle h2 now r = true) :
    classify h2 now r prev =
      some (if r.v.yaw < 0 then Signal.LeftColumn else Signal.RightColumn) := by
  unfold classify
  rw [if_pos hy, if_pos hi]

/-- The pitch branch with a passing gate sends the pitch-derived
signal. -/
lemma classify_pitch (h2 : List PoseRecord) (now : ℚ) (r prev : PoseRecord)
    (hny : ¬ yawCond r prev) (hp : pitchCond r prev) (hi : from_idle h2 now r = true) :
    classify h2 now r prev = some (if r.v.pitch < 0 then Signal.Down else Signal.Up) := by
  unfold classify
  rw [if_neg hny, if_pos hp, if_pos hi]

/-- A failing gate suppresses both branches. -/
lemma classify_not_idle (h2 : List PoseRecord) (now : ℚ) (r prev : PoseRecord)
    (hi : from_idle h2 now r = false) : classify h2 now r prev = none := by
  unfold classify
  split_ifs with h1 h2' h3 h4 <;> simp_all

/-- Inversion for a sent signal: it came from exactly one of the two
branches, with the gate passing. -/
lemma classify_cases (h2 : List PoseRecord) (now : ℚ) (r prev : PoseRecord) (s : Signal)
    (hs : classify h2 now r prev = some s) :
    (yawCond r prev ∧ from_idle h2 now r = true ∧
      s = (if r.v.yaw < 0 then Signal.LeftColumn else Signal.RightColumn)) ∨
    (¬ yawCond r prev ∧ pitchCond r prev ∧ from_idle h2 now r = true ∧
      s = (if r.v.pitch < 0 then Signal.Down else Signal.Up)) := by
  unfold classify at hs
  by_cases h1 : yawCond r prev
  · rw [if_pos h1] at hs
    by_cases h2' : from_idle h2 now r = true
    · rw [if_pos h2'] at hs
      exact Or.inl ⟨h1, h2', (Option.some.inj hs).symm⟩
    · rw [if_neg h2'] at hs
      exact absurd hs (by simp)
  · rw [if_neg h1] at hs
    by_cases h3 : pitchCond r prev
    · rw [if_pos h3] at hs
      by_cases h4 : from_idle h2 now r = true
      · rw [if_pos h4] at hs
        exact Or.inr ⟨h1, h3, h4, (Option.some.inj hs).symm⟩
      · rw [if_neg h4] at hs
        exact absurd hs (by simp)
    · rw [if_neg h3] at hs
      exact absurd hs (by simp)

/-- Inversion for one loop iteration that sent a signal: the history
was nonempty, no reset fired, the warm-up bound was met, and the
decision logic produced the signal. -/
lemma stepSignal_shape (prev : PoseRecord) (rest : List PoseRecord) (now : ℚ)
    (pose : Pose) (s : Signal) (hlen : (prev :: rest).length ≤ 4000)
    (hs : stepSignal (prev :: rest) now pose = some s) :
    ¬ 1 < (newRecord (prev :: rest) now pose).delta ∧
    16 ≤ (newRecord (prev :: rest) now pose :: prev :: rest).length ∧
    classify (newRecord (prev :: rest) now pose :: prev :: rest) now
      (newRecord (prev :: rest) now pose) prev = some s := by
  unfold stepSignal at hs
  rw [step_cons prev rest now pose hlen] at hs
  split_ifs at hs with h1 h2
  exact ⟨h1, Nat.le_of_not_lt h2, hs⟩

/-- Over a list along which the predicate `p` only switches off, the
records kept by `takeWhile p` are exactly the members satisfying `p`. -/
lemma all_takeWhile_iff {α : Type} (p q : α → Bool) (l : List α)
    (hp : l.Pairwise (fun a b => p b = true → p a = true)) :
    ((l.takeWhile p).all q = true) ↔ ∀ x ∈ l, p x = true → q x = true := by
  induction l with
  | nil => simp
  | cons a t ih =>
    rcases List.pairwise_cons.mp hp with ⟨ha, ht⟩
    by_cases hpa : p a = true
    · rw [List.takeWhile_cons_of_pos hpa]
      simp only [List.all_cons, Bool.and_eq_true, List.mem_cons]
      rw [ih ht]
      constructor
      · rintro ⟨hqa, hrest⟩ x hx hpx
        rcases hx with rfl | hx
        · exact hqa
        · exact hrest x hx hpx
      · intro hall
        exact ⟨hall a (Or.inl rfl) hpa, fun x hx hpx => hall x (Or.inr hx) hpx⟩
    · rw [List.takeWhile_cons_of_neg hpa]
      simp only [List.all_nil, true_iff]
      intro x hx hpx
      rcases List.mem_cons.mp hx with rfl | hx
      · exact absurd hpx hpa
      · exact absurd (ha x hx hpx) hpa

/-- An older record has an age at least as large, so the truncated
millisecond age bound propagates from older to newer records. -/
lemma ageMillisLt_mono (now : ℚ) (a b : PoseRecord) (hab : b.instant ≤ a.instant)
    (hb : ageMillisLt now b = true) : ageMillisLt now a = true := by
  unfold ageMillisLt at *
  rw [decide_eq_true_eq] at *
  have hd : durationSince now a.instant ≤ durationSince now b.instant := by
    unfold durationSince
    exact max_le_max (by linarith) le_rfl
  calc ⌊durationSince now a.instant * 1000⌋
      ≤ ⌊durationSince now b.instant * 1000⌋ :=
        Int.floor_le_floor (mul_le_mul_of_nonneg_right hd (by norm_num))
    _ < idle_time := hb

/-- On a time-descending history the gate is equivalent to a plain
universal statement over the records inside the idle window. -/
lemma from_idle_iff (h2 : List PoseRecord) (now : ℚ) (r : PoseRecord)
    (hsort : h2.Pairwise (fun a b => b.instant ≤ a.instant)) :
    from_idle h2 now r = true ↔
      ∀ x ∈ h2.drop 1, ageMillisLt now x = true → gateOk r x := by
  unfold from_idle
  have hps : (h2.drop 1).Pairwise (fun a b => b.instant ≤ a.instant) :=
    hsort.sublist (List.drop_sublist 1 h2)
  have hp : (h2.drop 1).Pairwise
      (fun a b => ageMillisLt now b = true → ageMillisLt now a = true) :=
    hps.imp (fun hab => ageMillisLt_mono now _ _ hab)
  rw [all_takeWhile_iff _ _ _ hp]
  simp only [decide_eq_true_eq]

/-- The record built on a nonempty history carries the time since the
front record as its delta, whichever velocity rule applies. -/
lemma newRecord_delta (prev : PoseRecord) (rest : List PoseRecord) (now : ℚ) (pose : Pose) :
    (newRecord (prev :: rest) now pose).delta = durationSince now prev.instant := by
  unfold newRecord
  cases hg : (prev :: rest).get? 2 <;> rfl

/-- Any sent signal is one of the four directional ones. -/
lemma step_signal_range (h : List PoseRecord) (now : ℚ) (pose : Pose) (s : Signal)
    (hs : stepSignal h now pose = some s) :
    s = Signal.LeftColumn ∨ s = Signal.RightColumn ∨ s = Signal.Up ∨ s = Signal.Down := by
  unfold stepSignal step at hs
  cases htk : h.take 4000 with
  | nil =>
    rw [htk] at hs
    simp at hs
  | cons prev rest =>
    rw [htk] at hs
    dsimp only at hs
    split_ifs at hs with h1 h2
    rcases classify_cases _ _ _ _ _ hs with ⟨_, _, hsEq⟩ | ⟨_, _, _, hsEq⟩
    · by_cases hy : (newRecord (prev :: rest) now pose).v.yaw < 0
      · rw [hsEq, if_pos hy]; exact Or.inl rfl
      · rw [hsEq, if_neg hy]; exact Or.inr (Or.inl rfl)
    · by_cases hp : (newRecord (prev :: rest) now pose).v.pitch < 0
      · rw [hsEq, if_pos hp]; exact Or.inr (Or.inr (Or.inr rfl))
      · rw [hsEq, if_neg hp]; exact Or.inr (Or.inr (Or.inl rfl))

/-!  The claims. -/

/-- C5: for every sequence of accepted samples starting from an empty
or freshly reset history, no signal is ever emitted while the history
length is below 16, and classification is skipped entirely on every
such sample: any iteration whose resulting history is shorter than 16
sends nothing, and a run of up to 15 samples over a history that keeps
the total below the bound sends nothing at all. -/
theorem warmup_thm :
    (∀ (h : List PoseRecord) (now : ℚ) (pose : Pose),
      (step h now pose).1.length < 16 → (step h now pose).2 = none) ∧
    (∀ (h : List PoseRecord) (samples : List (ℚ × Pose)),
      h.length + samples.length ≤ 15 → (runSamples h samples).2 = []) := by
  constructor
  · exact step_signal_small
  · intro h samples
    induction samples generalizing h with
    | nil => intro _; rfl
    | cons tp rest ih =>
      obtain ⟨t, p⟩ := tp
      intro hle
      have hlen : (step h t p).1.length ≤ h.length + 1 := step_length_le h t p
      have hsmall : (step h t p).1.length < 16 := by
        simp only [List.length_cons] at hle; omega
      have hrec : (runSamples (step h t p).1 rest).2 = [] := by
        apply ih
        simp only [List.length_cons] at hle
        omega
      unfold runSamples
      dsimp only
      rw [step_signal_small h t p hsmall, hrec]
      rfl

/-- C5 witness: from the empty history a first sample produces a
one-record history and no signal, and a two-sample run emits nothing. -/
theorem warmup_witness :
    (step [] 0 Pose.zero).1.length < 16 ∧ (step [] 0 Pose.zero).2 = none ∧
    (runSamples [] [(0, Pose.zero), (1 / 100, Pose.zero)]).2 = [] := by
  refine ⟨by with_unfolding_all decide, ?_, ?_⟩
  · exact warmup_thm.1 [] 0 Pose.zero (by with_unfolding_all decide)
  · exact warmup_thm.2 [] [(0, Pose.zero), (1 / 100, Pose.zero)] (by with_unfolding_all decide)

/-- C6: a record whose delta exceeds one second truncates the history
to the just-inserted record and sends no signal; the next accepted
sample continues a new warm-up from length 1 (to length 2, still with
no signal). -/
theorem discontinuity_thm :
    (∀ (prev : PoseRecord) (rest : List PoseRecord) (now : ℚ) (pose : Pose),
      (prev :: rest).length ≤ 4000 →
      1 < (newRecord (prev :: rest) now pose).delta →
      step (prev :: rest) now pose = ([newRecord (prev :: rest) now pose], none)) ∧
    (∀ (r0 : PoseRecord) (now : ℚ) (pose : Pose),
      ¬ 1 < (newRecord [r0] now pose).delta →
      step [r0] now pose = ([newRecord [r0] now pose, r0], none)) := by
  constructor
  · intro prev rest now pose hlen hdelta
    rw [step_cons prev rest now pose hlen, if_pos hdelta]
  · intro r0 now pose hnd
    rw [step_cons r0 [] now pose (by simp), if_neg hnd, if_pos (by simp)]

/-- C6 witness: a two-second gap resets a one-record history to the
new record alone; a half-second gap then continues warm-up to length
two without a signal. -/
theorem discontinuity_witness :
    step [idleRec 0] 2 Pose.zero = ([newRecord [idleRec 0] 2 Pose.zero], none) ∧
    step [idleRec 0] (1 / 2) Pose.zero =
      ([newRecord [idleRec 0] (1 / 2) Pose.zero, idleRec 0], none) := by
  constructor
  · exact discontinuity_thm.1 (idleRec 0) [] 2 Pose.zero
      (by with_unfolding_all decide) (by with_unfolding_all decide)
  · exact discontinuity_thm.2 (idleRec 0) (1 / 2) Pose.zero
      (by with_unfolding_all decide)

/-- C9: a signal is sent for an accepted sample only when the
acceleration estimate on the triggering axis, the difference of the
newest two velocity estimates divided by the last inter-sample delta,
strictly exceeds 1000; a yaw-derived signal requires it on the yaw
axis, a pitch-derived one on the pitch axis. -/
theorem accel_required_thm :
    ∀ (prev : PoseRecord) (rest : List PoseRecord) (now : ℚ) (pose : Pose) (s : Signal),
      (prev :: rest).length ≤ 4000 →
      stepSignal (prev :: rest) now pose = some s →
      (((s = Signal.LeftColumn ∨ s = Signal.RightColumn) →
        accel_threshold < |(accEstimate (newRecord (prev :: rest) now pose) prev).yaw|) ∧
       ((s = Signal.Up ∨ s = Signal.Down) →
        accel_threshold < |(accEstimate (newRecord (prev :: rest) now pose) prev).pitch|)) := by
  intro prev rest now pose s hlen hs
  obtain ⟨_, _, hc⟩ := stepSignal_shape prev rest now pose s hlen hs
  rcases classify_cases _ _ _ _ _ hc with ⟨⟨hyt, hacc, hdom⟩, _, hsEq⟩ |
    ⟨_, ⟨hpt, hacc⟩, _, hsEq⟩
  · refine ⟨fun _ => hacc, fun hud => ?_⟩
    rw [hsEq] at hud
    by_cases hy : (newRecord (prev :: rest) now pose).v.yaw < 0 <;> simp [hy] at hud
  · refine ⟨fun hlr => ?_, fun _ => hacc⟩
    rw [hsEq] at hlr
    by_cases hp : (newRecord (prev :: rest) now pose).v.pitch < 0 <;> simp [hp] at hlr

/-- C9 witness: the concrete emitting sample has a yaw acceleration
estimate of 5000, above the 1000 cutoff. -/
theorem accel_required_witness :
    accel_threshold <
      |(accEstimate (newRecord exHist 1 exPoseYawPos) (idleRec (99 / 100))).yaw| :=
  (accel_required_thm (idleRec (99 / 100)) exHistTail 1 exPoseYawPos Signal.RightColumn
    (by with_unfolding_all decide) (by with_unfolding_all decide)).1 (Or.inr rfl)

/-- C10: over any history and any input sequence, every emitted signal
is one of LeftColumn, RightColumn, Up and Down; the LeftMonitor,
RightMonitor and Nop variants are never sent. -/
theorem signal_range_thm :
    ∀ (h : List PoseRecord) (samples : List (ℚ × Pose)) (s : Signal),
      s ∈ (runSamples h samples).2 →
      ((s = Signal.LeftColumn ∨ s = Signal.RightColumn ∨ s = Signal.Up ∨ s = Signal.Down) ∧
       s ≠ Signal.LeftMonitor ∧ s ≠ Signal.RightMonitor ∧ s ≠ Signal.Nop) := by
  intro h samples
  induction samples generalizing h with
  | nil =>
    intro s hs
    simp [runSamples] at hs
  | cons tp rest ih =>
    obtain ⟨t, p⟩ := tp
    intro s hs
    unfold runSamples at hs
    rw [List.mem_append] at hs
    rcases hs with hs | hs
    · have hsome : (step h t p).2 = some s := by
        cases ho : (step h t p).2 with
        | none => rw [ho] at hs; simp at hs
        | some s2 =>
          rw [ho] at hs
          simp only [Option.toList_some, List.mem_singleton] at hs
          rw [hs]
      have hd := step_signal_range h t p s hsome
      exact ⟨hd, by rcases hd with rfl | rfl | rfl | rfl <;> exact ⟨by decide, by decide, by decide⟩⟩
    · exact ih (step h t p).1 s hs

/-- C1 counterexample: a concrete accepted sample whose yaw velocity
is +50 (at or above the 36 threshold), with the idle gate passing, on
which the classifier emits RightColumn and not the LeftColumn the
claim requires for positive yaw. -/
theorem yaw_sign_claim_cex :
    yaw_threshold ≤ |(newRecord exHist 1 exPoseYawPos).v.yaw| ∧
    0 < (newRecord exHist 1 exPoseYawPos).v.yaw ∧
    from_idle (newRecord exHist 1 exPoseYawPos :: exHist) 1
      (newRecord exHist 1 exPoseYawPos) = true ∧
    stepSignal exHist 1 exPoseYawPos = some Signal.RightColumn ∧
    some Signal.RightColumn ≠ some Signal.LeftColumn := by
  with_unfolding_all decide

set_option maxRecDepth 200000 in
/-- C1 amended: when the yaw branch fires (yaw velocity magnitude at
or above 36, yaw acceleration magnitude above 1000, yaw magnitude
strictly dominating pitch magnitude) and the idle gate passes, the
classifier emits LeftColumn for negative yaw velocity and RightColumn
otherwise; the synthetic monotone-yaw sequence (idle 500 ms lead-in, then
+50 degrees per second sampled every 10 ms for 600 ms) emits exactly
one RightColumn and never LeftColumn. -/
theorem yaw_sign_amended :
    (∀ (prev : PoseRecord) (rest : List PoseRecord) (now : ℚ) (pose : Pose)
        (r : PoseRecord),
      r = newRecord (prev :: rest) now pose →
      (prev :: rest).length ≤ 4000 →
      ¬ 1 < r.delta →
      16 ≤ rest.length + 2 →
      yawCond r prev →
      from_idle (r :: prev :: rest) now r = true →
      stepSignal (prev :: rest) now pose =
        some (if r.v.yaw < 0 then Signal.LeftColumn else Signal.RightColumn)) ∧
    (runSamples [] syntheticSamples).2 = [Signal.RightColumn] := by
  constructor
  · intro prev rest now pose r hr hlen hnd hwarm hy hidle
    subst hr
    unfold stepSignal
    rw [step_cons prev rest now pose hlen, if_neg hnd,
      if_neg (by simp only [List.length_cons]; omega)]
    exact classify_yaw _ now _ prev hy hidle
  · with_unfolding_all decide

/-- C1 witness: the concrete fast positive-yaw sample emits
RightColumn through the amended rule. -/
theorem yaw_sign_amended_witness :
    stepSignal exHist 1 exPoseYawPos = some Signal.RightColumn := by
  have h := yaw_sign_amended.1 (idleRec (99 / 100)) exHistTail 1 exPoseYawPos
    (newRecord exHist 1 exPoseYawPos) rfl (by with_unfolding_all decide)
    (by with_unfolding_all decide) (by with_unfolding_all decide)
    (by with_unfolding_all decide) (by with_unfolding_all decide)
  exact h.trans (by with_unfolding_all decide)

/-- C2 counterexample: a concrete accepted sample with pitch velocity
+45 and passing gate: the claim forbids any emission (45 is neither
above +50 nor below -32) yet the classifier emits, and it emits Up for
the positive pitch where the claim requires Down. -/
theorem pitch_claim_cex :
    (newRecord exHist 1 exPosePitch).v.pitch = 45 ∧
    ¬ ((newRecord exHist 1 exPosePitch).v.pitch > 50 ∨
        (newRecord exHist 1 exPosePitch).v.pitch < -32) ∧
    from_idle (newRecord exHist 1 exPosePitch :: exHist) 1
      (newRecord exHist 1 exPosePitch) = true ∧
    stepSignal exHist 1 exPosePitch = some Signal.Up ∧
    Signal.Up ≠ Signal.Down := by
  with_unfolding_all decide

/-- C2 amended: when the yaw branch does not fire, a signal is sent
exactly when the pitch velocity magnitude strictly exceeds the single
symmetric threshold 40 and the pitch acceleration magnitude strictly
exceeds 1000 and the idle gate passes, and the sent signal is Down for
negative pitch velocity and Up for nonnegative pitch velocity. -/
theorem pitch_amended :
    ∀ (prev : PoseRecord) (rest : List PoseRecord) (now : ℚ) (pose : Pose)
        (r : PoseRecord),
      r = newRecord (prev :: rest) now pose →
      (prev :: rest).length ≤ 4000 →
      ¬ 1 < r.delta →
      16 ≤ rest.length + 2 →
      ¬ yawCond r prev →
      (((stepSignal (prev :: rest) now pose).isSome = true ↔
          (pitchCond r prev ∧ from_idle (r :: prev :: rest) now r = true)) ∧
        ∀ s, stepSignal (prev :: rest) now pose = some s →
          ((r.v.pitch < 0 → s = Signal.Down) ∧ (0 ≤ r.v.pitch → s = Signal.Up))) := by
  intro prev rest now pose r hr hlen hnd hwarm hny
  subst hr
  unfold stepSignal
  rw [step_cons prev rest now pose hlen, if_neg hnd,
    if_neg (by simp only [List.length_cons]; omega)]
  constructor
  · unfold classify
    rw [if_neg hny]
    by_cases hp : pitchCond (newRecord (prev :: rest) now pose) prev
    · rw [if_pos hp]
      by_cases hi : from_idle (newRecord (prev :: rest) now pose :: prev :: rest) now
          (newRecord (prev :: rest) now pose) = true
      · rw [if_pos hi]
        simp [hp, hi]
      · rw [if_neg hi]
        simp [hp, hi]
    · rw [if_neg hp]
      simp [hp]
  · intro s hs
    rcases classify_cases _ _ _ _ _ hs with ⟨hy, _, _⟩ | ⟨_, _, _, hsEq⟩
    · exact absurd hy hny
    · constructor
      · intro hneg
        rw [hsEq, if_pos hneg]
      · intro hpos
        rw [hsEq, if_neg (not_lt.mpr hpos)]

/-- C2 witness: the concrete positive-pitch sample emits Up through
the amended rule. -/
theorem pitch_amended_witness :
    stepSignal exHist 1 exPosePitch = some Signal.Up := by
  have h := pitch_amended (idleRec (99 / 100)) exHistTail 1 exPosePitch
    (newRecord exHist 1 exPosePitch) rfl (by with_unfolding_all decide)
    (by with_unfolding_all decide) (by with_unfolding_all decide)
    (by with_unfolding_all decide)
  obtain ⟨s, hs⟩ := Option.isSome_iff_exists.mp
    (h.1.mpr ⟨by with_unfolding_all decide, by with_unfolding_all decide⟩)
  have hup := (h.2 s hs).2 (by with_unfolding_all decide)
  rw [hup] at hs
  exact hs

/-- C3 counterexample: a concrete accepted sample whose yaw velocity
(+40) and pitch velocity (+45) both exceed their thresholds, yet the
classifier emits the pitch-derived Up, because the yaw branch also
demands that the yaw magnitude strictly dominate the pitch magnitude. -/
theorem priority_claim_cex :
    yaw_threshold ≤ |(newRecord exHist 1 exPoseBoth).v.yaw| ∧
    pitch_threshold < |(newRecord exHist 1 exPoseBoth).v.pitch| ∧
    stepSignal exHist 1 exPoseBoth = some Signal.Up ∧
    Signal.Up ≠ Signal.LeftColumn ∧ Signal.Up ≠ Signal.RightColumn := by
  with_unfolding_all decide

/-- C3 amended: on a sample where the full yaw-branch condition holds
(thresholds plus yaw acceleration above 1000 plus yaw magnitude
strictly dominating pitch magnitude), any emitted signal is
yaw-derived, LeftColumn or RightColumn, never a pitch one; at most one
signal per sample is inherent in the one-branch decision. -/
theorem priority_amended :
    ∀ (prev : PoseRecord) (rest : List PoseRecord) (now : ℚ) (pose : Pose)
        (r : PoseRecord) (s : Signal),
      r = newRecord (prev :: rest) now pose →
      (prev :: rest).length ≤ 4000 →
      yawCond r prev →
      stepSignal (prev :: rest) now pose = some s →
      s = Signal.LeftColumn ∨ s = Signal.RightColumn := by
  intro prev rest now pose r s hr hlen hy hs
  subst hr
  obtain ⟨_, _, hc⟩ := stepSignal_shape prev rest now pose s hlen hs
  rcases classify_cases _ _ _ _ _ hc with ⟨_, _, hsEq⟩ | ⟨hny, _, _, _⟩
  · by_cases hneg : (newRecord (prev :: rest) now pose).v.yaw < 0
    · rw [hsEq, if_pos hneg]; exact Or.inl rfl
    · rw [hsEq, if_neg hneg]; exact Or.inr rfl
  · exact absurd hy hny

/-- C3 witness: the concrete yaw-dominant sample emits a yaw-derived
signal. -/
theorem priority_amended_witness :
    Signal.RightColumn = Signal.LeftColumn ∨ Signal.RightColumn = Signal.RightColumn :=
  priority_amended (idleRec (99 / 100)) exHistTail 1 exPoseYawPos
    (newRecord exHist 1 exPoseYawPos) Signal.RightColumn rfl
    (by with_unfolding_all decide) (by with_unfolding_all decide)
    (by with_unfolding_all decide)

/-- C4 counterexample: a concrete history and current record on which
the gate of the specification passes (the one super-threshold lead-in
record matches the current record's sign on its dominant axis, yaw)
while the gate of the code fails, because the code also compares the
pitch signs. -/
theorem gate_claim_cex :
    from_idle gateHist 1 gateRecCur = false ∧ gateSpec gateHist 1 gateRecCur := by
  with_unfolding_all decide

/-- C4 amended: on a time-descending history, the gate passes exactly
when every record younger than the idle window, the newest excluded,
either has yaw and pitch velocity magnitudes below the gesture
thresholds or matches the velocity sign of the current record on both
the yaw and the pitch axes; in particular a young super-threshold
record of opposite yaw sign forces the gate to fail. -/
theorem gate_amended :
    ∀ (h2 : List PoseRecord) (now : ℚ) (r : PoseRecord),
      h2.Pairwise (fun a b => b.instant ≤ a.instant) →
      ((from_idle h2 now r = true ↔
          ∀ x ∈ h2.drop 1,
            ⌊durationSince now x.instant * 1000⌋ < idle_time → gateOk r x) ∧
        (∀ x ∈ h2.drop 1,
          ⌊durationSince now x.instant * 1000⌋ < idle_time →
          yaw_threshold ≤ |x.v.yaw| →
          fsignum x.v.yaw ≠ fsignum r.v.yaw →
          from_idle h2 now r = false)) := by
  intro h2 now r hsort
  have hiff := from_idle_iff h2 now r hsort
  have hconv : ∀ x : PoseRecord,
      ageMillisLt now x = true ↔ ⌊durationSince now x.instant * 1000⌋ < idle_time := by
    intro x
    unfold ageMillisLt
    exact decide_eq_true_iff
  have hmain : from_idle h2 now r = true ↔
      ∀ x ∈ h2.drop 1, ⌊durationSince now x.instant * 1000⌋ < idle_time → gateOk r x := by
    rw [hiff]
    constructor
    · intro hf x hx hage
      exact hf x hx ((hconv x).mpr hage)
    · intro hall x hx hb
      exact hall x hx ((hconv x).mp hb)
  refine ⟨hmain, ?_⟩
  intro x hx hage hth hsign
  cases hb : from_idle h2 now r with
  | false => rfl
  | true =>
    rcases hmain.mp hb x hx hage with ⟨h1, _⟩ | ⟨h2', _⟩
    · exact absurd h1 (not_lt.mpr hth)
    · exact absurd h2' hsign

/-- C4 witness: a lead-in of -50 yaw velocity against a +50 current
record makes the gate fail through the amended characterization. -/
theorem gate_amended_witness : from_idle gateHist2 1 gateRecCur = false :=
  (gate_amended gateHist2 1 gateRecCur (by with_unfolding_all decide)).2 gateRecOpp
    (by with_unfolding_all decide) (by with_unfolding_all decide)
    (by with_unfolding_all decide) (by with_unfolding_all decide)

/-- C7 counterexample: a sample whose timestamp equals the newest
record's (delta zero) is still processed, the record is appended to
the history rather than the update being skipped, and the acceleration
quotient the code then forms divides the velocity difference 75 by
zero, which in IEEE f64 arithmetic is positive infinity, not a skipped
update. -/
theorem divzero_claim_cex :
    (newRecord exHist (99 / 100) exPoseYawPos).delta = 0 ∧
    (step exHist (99 / 100) exPoseYawPos).1 =
      newRecord exHist (99 / 100) exPoseYawPos :: exHist ∧
    fdivF ((newRecord exHist (99 / 100) exPoseYawPos).v.yaw - (idleRec (99 / 100)).v.yaw) 0
      = FVal.inf := by
  with_unfolding_all decide

/-- C7 amended: the division is not guarded: a sample carrying the
same timestamp as the newest record is processed normally and its
record is pushed onto the history, and the unguarded IEEE division of
a nonzero numerator by the zero elapsed time yields an infinity (NaN
for zero over zero); no crash occurs because IEEE division is total. -/
theorem divzero_amended :
    (∀ (prev : PoseRecord) (rest : List PoseRecord) (now : ℚ) (pose : Pose),
      (prev :: rest).length ≤ 4000 →
      now = prev.instant →
      (step (prev :: rest) now pose).1 =
        newRecord (prev :: rest) now pose :: prev :: rest) ∧
    (∀ q : ℚ, 0 < q → fdivF q 0 = FVal.inf) ∧
    (∀ q : ℚ, q < 0 → fdivF q 0 = FVal.neginf) ∧
    fdivF 0 0 = FVal.nan := by
  refine ⟨?_, ?_, ?_, by simp [fdivF]⟩
  · intro prev rest now pose hlen hdup
    have hdelta : (newRecord (prev :: rest) now pose).delta = 0 := by
      rw [newRecord_delta, hdup]
      simp [durationSince]
    rw [step_cons prev rest now pose hlen, if_neg (by rw [hdelta]; norm_num)]
    by_cases hlen16 : (newRecord (prev :: rest) now pose :: prev :: rest).length < 16
    · rw [if_pos hlen16]
    · rw [if_neg hlen16]
  · intro q hq
    simp [fdivF, hq.ne', hq]
  · intro q hq
    simp [fdivF, hq.ne, not_lt.mpr hq.le, hq]

/-- C7 witness: the concrete duplicate-timestamp sample still grows
the history, and the division of the positive velocity difference 75
by the zero delta is positive infinity. -/
theorem divzero_amended_witness :
    (step exHist (99 / 100) Pose.zero).1 =
      newRecord exHist (99 / 100) Pose.zero :: exHist ∧ fdivF 75 0 = FVal.inf := by
  constructor
  · exact divzero_amended.1 (idleRec (99 / 100)) exHistTail (99 / 100) Pose.zero
      (by with_unfolding_all decide) (by with_unfolding_all decide)
  · exact divzero_amended.2.1 75 (by norm_num)

/-- C8 counterexample: on a concrete history of three or more records
the stored velocity is not the claimed difference against the record
two slots older than the current sample (one intermediate skipped,
index 1 of the pre-insertion history) but the difference against the
record at index 2, three slots older (two intermediates skipped). -/
theorem velocity_ref_cex :
    (newRecord exHist 1 exPoseYawPos).v ≠
      Pose.diff exPoseYawPos (idleRec (98 / 100)).pose (durationSince 1 (98 / 100)) ∧
    (newRecord exHist 1 exPoseYawPos).v =
      Pose.diff exPoseYawPos (idleRec (97 / 100)).pose (durationSince 1 (97 / 100)) ∧
    exHist.get? 1 = some (idleRec (98 / 100)) ∧
    exHist.get? 2 = some (idleRec (97 / 100)) := by
  with_unfolding_all decide

/-- C8 amended: with at least 3 existing records, the stored velocity
is, independently in each of the six pose fields, the difference
between the current pose and the pose of the record at index 2 of the
pre-insertion history (three slots older than the current sample,
skipping two intermediate samples), divided by the elapsed time
between the two instants; with one or two existing records it falls
back to the adjacent-sample derivative against the front record. -/
theorem velocity_ref_amended :
    (∀ (a b c : PoseRecord) (rest : List PoseRecord) (now : ℚ) (pose : Pose),
      (newRecord (a :: b :: c :: rest) now pose).v =
        Pose.diff pose c.pose (durationSince now c.instant)) ∧
    (∀ (prev : PoseRecord) (now : ℚ) (pose : Pose),
      (newRecord [prev] now pose).v =
        Pose.diff pose prev.pose (durationSince now prev.instant)) ∧
    (∀ (prev p2 : PoseRecord) (now : ℚ) (pose : Pose),
      (newRecord [prev, p2] now pose).v =
        Pose.diff pose prev.pose (durationSince now prev.instant)) :=
  ⟨fun _ _ _ _ _ _ => rfl, fun _ _ _ => rfl, fun _ _ _ _ => rfl⟩

/-- C10 witness: a run that emits RightColumn, with that signal inside
the four directional variants and distinct from the unsent ones. -/
theorem signal_range_witness :
    (Signal.RightColumn = Signal.LeftColumn ∨ Signal.RightColumn = Signal.RightColumn ∨
      Signal.RightColumn = Signal.Up ∨ Signal.RightColumn = Signal.Down) ∧
    Signal.RightColumn ≠ Signal.LeftMonitor ∧ Signal.RightColumn ≠ Signal.RightMonitor ∧
    Signal.RightColumn ≠ Signal.Nop :=
  signal_range_thm exHist [(1, exPoseYawPos)] Signal.RightColumn
    (by with_unfolding_all decide)
